import Mathlib

/-!
Verification of the virtualized spreadsheet grid engine.

The development shallowly embeds the TypeScript sources: JavaScript `Map`
objects become association lists with insertion-order semantics (`mapGet`,
`mapSet`, `mapDelete`), numeric sizes become integers, the sparse cell store
`Map<number, Map<number, Cell>>` becomes a two-level association list, and
each mutating method becomes a state-passing function.
-/

namespace Excel

/-! ## Association-list model of JavaScript `Map` -/

/-- Lookup in a JS `Map` (`m.get(k)`). -/
def mapGet {α : Type} : List (Nat × α) → Nat → Option α
  | [], _ => none
  | (k', v) :: rest, k => if k' = k then some v else mapGet rest k

/-- `m.set(k, v)`: update in place if the key exists, else append at the end
(JS `Map` preserves insertion order). -/
def mapSet {α : Type} : List (Nat × α) → Nat → α → List (Nat × α)
  | [], k, v => [(k, v)]
  | (k', v') :: rest, k, v =>
      if k' = k then (k', v) :: rest else (k', v') :: mapSet rest k v

/-- `m.delete(k)`: remove the entry with key `k` (keys are unique). -/
def mapDelete {α : Type} : List (Nat × α) → Nat → List (Nat × α)
  | [], _ => []
  | (k', v') :: rest, k =>
      if k' = k then rest else (k', v') :: mapDelete rest k

/-- `m.size` for a map with unique keys. -/
def mapSize {α : Type} (m : List (Nat × α)) : Nat := m.length

theorem mapGet_mapSet_self {α : Type} (m : List (Nat × α)) (k : Nat) (v : α) :
    mapGet (mapSet m k v) k = some v := by
  induction m with
  | nil => simp [mapSet, mapGet]
  | cons p rest ih =>
      by_cases h : p.1 = k <;> simp [mapSet, mapGet, h, ih]

theorem mapGet_mapSet_ne {α : Type} (m : List (Nat × α)) (k k' : Nat) (v : α)
    (h : k ≠ k') : mapGet (mapSet m k v) k' = mapGet m k' := by
  induction m with
  | nil => simp [mapSet, mapGet, h]
  | cons p rest ih =>
      by_cases hp : p.1 = k
      · simp [mapSet, mapGet, hp, h]
      · by_cases hp' : p.1 = k' <;>
          simp [mapSet, mapGet, hp, hp', Ne.symm h, ih]

theorem mapSet_mapSet_self {α : Type} (m : List (Nat × α)) (k : Nat) (v w : α) :
    mapSet (mapSet m k v) k w = mapSet m k w := by
  induction m with
  | nil => simp [mapSet]
  | cons p rest ih =>
      by_cases h : p.1 = k <;> simp [mapSet, h, ih]

theorem mapSet_eq_self {α : Type} (m : List (Nat × α)) (k : Nat) (v : α)
    (h : mapGet m k = some v) : mapSet m k v = m := by
  induction m with
  | nil => simp [mapGet] at h
  | cons p rest ih =>
      obtain ⟨pk, pv⟩ := p
      by_cases hp : pk = k
      · simp [mapGet, hp] at h
        simp [mapSet, hp, h]
      · simp [mapGet, hp] at h
        simp [mapSet, hp, ih h]

/-! ## List-backed size tracks (RowManager / ColumnManager)

`RowManager` stores `rowHeights : number[]`; `ColumnManager` stores
`colWidths : number[]`.  Both are built by pushing `count` copies of the
default size.  Reads index the array, writes assign the index, positions are
naive prefix sums, totals are `reduce`.  The same integer-list functions model
both managers. -/

/-- The constructor loop: `count` entries of `defaultSize`. -/
def mkTrack (count : Nat) (defaultSize : Int) : List Int :=
  List.replicate count defaultSize

/-- `getHeight(rowIndex)` / `getWidth(colIndex)`: read the array. -/
def trackGet (sizes : List Int) (index : Nat) : Int := sizes.getD index 0

/-- `setHeight(rowIndex, height)` / `setWidth(colIndex, width)`: plain
assignment, no clamping. -/
def trackSet (sizes : List Int) (index : Nat) (size : Int) : List Int :=
  sizes.set index size

/-- `getY(rowIndex)` / `getX(colIndex)`: prefix sum of sizes before index. -/
def trackPos (sizes : List Int) (index : Nat) : Int :=
  ((sizes.take index).foldl (· + ·) 0)

/-- `getTotalHeight()` / `getTotalWidth()`: `reduce((a, b) => a + b, ...)`. -/
def trackTotal (sizes : List Int) : Int := sizes.foldl (· + ·) 0

theorem trackSet_restore (l : List Int) (i : Nat) (v : Int) :
    trackSet (trackSet l i v) i (trackGet l i) = l := by
  induction l generalizing i with
  | nil => simp [trackSet, trackGet]
  | cons a t ih =>
      cases i with
      | zero => simp [trackSet, trackGet]
      | succ n =>
          simp [trackSet, trackGet, List.set, List.getD] at *
          exact ih n

theorem trackGet_trackSet_self (l : List Int) (i : Nat) (v : Int)
    (h : i < l.length) : trackGet (trackSet l i v) i = v := by
  induction l generalizing i with
  | nil => simp at h
  | cons a t ih =>
      cases i with
      | zero => simp [trackSet, trackGet]
      | succ n =>
          simp [trackSet, trackGet, List.getD] at *
          exact ih n h

/-! ## Cell -/

/-- The full-featured `Cell` revision: value, font size, bold, italic
(`src/core/Cell.ts`).  `new Cell(row, col)` leaves value `""`, fontSize `14`,
isBold `false`, isItalic `false`. -/
structure Cell where
  row : Nat
  col : Nat
  value : String
  fontSize : Int
  isBold : Bool
  isItalic : Bool
deriving DecidableEq, Repr

/-- `new Cell(row, col)`. -/
def Cell.new (row col : Nat) : Cell :=
  ⟨row, col, "", 14, false, false⟩

/-- `Map<number, Map<number, Cell>>` — the sparse store `Grid.cells`. -/
def CellStore : Type := List (Nat × List (Nat × Cell))

instance : DecidableEq CellStore := by
  unfold CellStore
  infer_instance

/-! ## Grid state

`Grid` owns `cells : Map<number, Map<number, Cell>>`, a `RowManager` and a
`ColumnManager`.  The constructor creates no cells. -/

/-- `ROWS = 100_000`. -/
def ROWS : Nat := 100000

/-- `COLS = 5000`. -/
def COLS : Nat := 5000

/-- The mutable grid state: the sparse cell store plus both size tracks. -/
structure Grid where
  cells : CellStore
  rowHeights : List Int
  colWidths : List Int
deriving DecidableEq

/-- `Grid.getCellIfExists(row, col)`: two-level lookup, `null` when either
level is missing; never mutates. -/
def getCellIfExists (g : Grid) (row col : Nat) : Option Cell :=
  match mapGet g.cells row with
  | none => none
  | some rowMap => mapGet rowMap col

/-- `Grid.getCellValueIfExists(row, col)`: the value, or `""` when absent. -/
def getCellValueIfExists (g : Grid) (row col : Nat) : String :=
  match mapGet g.cells row with
  | none => ""
  | some rowMap =>
      match mapGet rowMap col with
      | none => ""
      | some cell => cell.value

/-- `Grid.countCreatedCells()`: sum of the sizes of all row maps. -/
def countCreatedCells (g : Grid) : Nat :=
  (g.cells.map (fun p => mapSize p.2)).foldl (· + ·) 0

/-- `Grid.getCell(row, col)`: materializes the row map and the cell if
missing, returns the (possibly fresh) cell together with the updated store. -/
def getCell (g : Grid) (row col : Nat) : Cell × Grid :=
  match mapGet g.cells row with
  | none =>
      let cell := Cell.new row col
      (cell, { g with cells := mapSet g.cells row (mapSet [] col cell) })
  | some rowMap =>
      match mapGet rowMap col with
      | none =>
          let cell := Cell.new row col
          (cell, { g with cells := mapSet g.cells row (mapSet rowMap col cell) })
      | some cell => (cell, g)

/-- Mutation through an aliased `Cell` reference: the command holds the same
object the store holds, so a setter call rewrites that entry in place.  When
the cell is no longer in the store the store is unaffected. -/
def updateCellInStore (cs : CellStore) (r c : Nat) (f : Cell → Cell) : CellStore :=
  match mapGet cs r with
  | none => cs
  | some rowMap =>
      match mapGet rowMap c with
      | none => cs
      | some cell => mapSet cs r (mapSet rowMap c (f cell))

/-- `value.trim()`: strip leading and trailing whitespace (structural model of
the JS string method). -/
def strTrim (s : String) : String :=
  ⟨((s.data.dropWhile Char.isWhitespace).reverse.dropWhile Char.isWhitespace).reverse⟩

/-- `Grid.setCellValue(row, col, value)`: returns immediately when the trimmed
value is empty, otherwise materializes via `getCell` and sets the value. -/
def setCellValue (g : Grid) (row col : Nat) (value : String) : Grid :=
  if strTrim value = "" then g
  else
    let g' := (getCell g row col).2
    { g' with cells := (updateCellInStore g'.cells row col
        (fun cell => { cell with value := value })) }

theorem updateCellInStore_roundtrip (cs : CellStore) (r c : Nat)
    (f f' : Cell → Cell)
    (h : ∀ rowMap cell, mapGet cs r = some rowMap → mapGet rowMap c = some cell →
      f' (f cell) = cell) :
    updateCellInStore (updateCellInStore cs r c f) r c f' = cs := by
  unfold updateCellInStore
  cases hr : mapGet cs r with
  | none => simp [hr]
  | some rowMap =>
      cases hc : mapGet rowMap c with
      | none => simp [hr, hc]
      | some cell =>
          simp only [hr, hc, mapGet_mapSet_self, mapSet_mapSet_self,
            h rowMap cell hr hc]
          rw [mapSet_eq_self rowMap c cell hc, mapSet_eq_self cs r rowMap hr]

/-! ## Commands and the CommandManager

The five command classes present in the source.  Each stores the references
and old/new scalars captured at construction time:
`ResizeRowCommand(grid, row, oldHeight, newHeight)`,
`ResizeColumnCommand(grid, col, oldWidth, newWidth)`,
`BoldCommand(cell, newBold)` (old read from the cell),
`ItalicCommand(cell, newItalic)`, `FontSizeCommand(cell, newSize)`. -/

inductive Command where
  | resizeRow (row : Nat) (oldHeight newHeight : Int)
  | resizeCol (col : Nat) (oldWidth newWidth : Int)
  | bold (row col : Nat) (oldBold newBold : Bool)
  | italic (row col : Nat) (oldItalic newItalic : Bool)
  | fontSize (row col : Nat) (oldSize newSize : Int)
deriving DecidableEq

/-- `command.execute()`: apply the new scalar. -/
def Command.exec : Command → Grid → Grid
  | .resizeRow row _ newH, g => { g with rowHeights := trackSet g.rowHeights row newH }
  | .resizeCol col _ newW, g => { g with colWidths := trackSet g.colWidths col newW }
  | .bold r c _ newB, g =>
      { g with cells := updateCellInStore g.cells r c (fun cell => { cell with isBold := newB }) }
  | .italic r c _ newI, g =>
      { g with cells := updateCellInStore g.cells r c (fun cell => { cell with isItalic := newI }) }
  | .fontSize r c _ newS, g =>
      { g with cells := updateCellInStore g.cells r c (fun cell => { cell with fontSize := newS }) }

/-- `command.undo()`: apply the old scalar captured at construction. -/
def Command.undoStep : Command → Grid → Grid
  | .resizeRow row oldH _, g => { g with rowHeights := trackSet g.rowHeights row oldH }
  | .resizeCol col oldW _, g => { g with colWidths := trackSet g.colWidths col oldW }
  | .bold r c oldB _, g =>
      { g with cells := updateCellInStore g.cells r c (fun cell => { cell with isBold := oldB }) }
  | .italic r c oldI _, g =>
      { g with cells := updateCellInStore g.cells r c (fun cell => { cell with isItalic := oldI }) }
  | .fontSize r c oldS _, g =>
      { g with cells := updateCellInStore g.cells r c (fun cell => { cell with fontSize := oldS }) }

/-- The two stacks of `CommandManager`; the head of each list is the top of
the stack (`push`/`pop` act on the array end in the source). -/
structure CommandManager where
  undoStack : List Command
  redoStack : List Command
deriving DecidableEq

/-- `CommandManager.execute(command)`: run it, push onto undo, clear redo. -/
def cmExecute (c : Command) : CommandManager × Grid → CommandManager × Grid
  | (cm, g) => (⟨c :: cm.undoStack, []⟩, c.exec g)

/-- `CommandManager.undo()`: pop undo (no-op when empty), run `undo()`, push
onto redo. -/
def cmUndo : CommandManager × Grid → CommandManager × Grid
  | (⟨[], rs⟩, g) => (⟨[], rs⟩, g)
  | (⟨c :: us, rs⟩, g) => (⟨us, c :: rs⟩, c.undoStep g)

/-- `CommandManager.redo()`: pop redo (no-op when empty), run `execute()`,
push onto undo. -/
def cmRedo : CommandManager × Grid → CommandManager × Grid
  | (⟨us, []⟩, g) => (⟨us, []⟩, g)
  | (⟨us, c :: rs⟩, g) => (⟨c :: us, rs⟩, c.exec g)

/-! Command construction as it happens in the source: every command is built
from the live state immediately before `commandManager.execute`, capturing the
old scalar from the current grid (`originalSize` for resizes, the cell's
current flag for formatting). -/

/-- A command request: the target and the new scalar, before the old scalar
has been captured. -/
inductive CmdSpec where
  | resizeRow (row : Nat) (newHeight : Int)
  | resizeCol (col : Nat) (newWidth : Int)
  | bold (row col : Nat) (newBold : Bool)
  | italic (row col : Nat) (newItalic : Bool)
  | fontSize (row col : Nat) (newSize : Int)
deriving DecidableEq

/-- Constructor semantics: capture the old scalar from the current grid. -/
def mkCommand (s : CmdSpec) (g : Grid) : Command :=
  match s with
  | .resizeRow row newH => .resizeRow row (trackGet g.rowHeights row) newH
  | .resizeCol col newW => .resizeCol col (trackGet g.colWidths col) newW
  | .bold r c newB =>
      .bold r c (((getCellIfExists g r c).map Cell.isBold).getD false) newB
  | .italic r c newI =>
      .italic r c (((getCellIfExists g r c).map Cell.isItalic).getD false) newI
  | .fontSize r c newS =>
      .fontSize r c (((getCellIfExists g r c).map Cell.fontSize).getD 14) newS

/-- Construct-then-execute for a whole list of requests, in order. -/
def runSpecs : List CmdSpec → CommandManager × Grid → CommandManager × Grid
  | [], st => st
  | s :: rest, (cm, g) => runSpecs rest (cmExecute (mkCommand s g) (cm, g))

/-- `n` consecutive `undo()` calls. -/
def undoN : Nat → CommandManager × Grid → CommandManager × Grid
  | 0, st => st
  | n + 1, st => cmUndo (undoN n st)

theorem mkCommand_roundtrip (s : CmdSpec) (g : Grid) :
    (mkCommand s g).undoStep ((mkCommand s g).exec g) = g := by
  cases s with
  | resizeRow row newH =>
      simp [mkCommand, Command.exec, Command.undoStep, trackSet_restore]
  | resizeCol col newW =>
      simp [mkCommand, Command.exec, Command.undoStep, trackSet_restore]
  | bold r c newB =>
      simp only [mkCommand, Command.exec, Command.undoStep]
      cases g with
      | mk cells rows cols =>
          simp only [Grid.mk.injEq, and_true, true_and]
          apply updateCellInStore_roundtrip
          intro rowMap cell hr hc
          simp [getCellIfExists, hr, hc]
  | italic r c newI =>
      simp only [mkCommand, Command.exec, Command.undoStep]
      cases g with
      | mk cells rows cols =>
          simp only [Grid.mk.injEq, and_true, true_and]
          apply updateCellInStore_roundtrip
          intro rowMap cell hr hc
          simp [getCellIfExists, hr, hc]
  | fontSize r c newS =>
      simp only [mkCommand, Command.exec, Command.undoStep]
      cases g with
      | mk cells rows cols =>
          simp only [Grid.mk.injEq, and_true, true_and]
          apply updateCellInStore_roundtrip
          intro rowMap cell hr hc
          simp [getCellIfExists, hr, hc]

theorem runSpecs_undoN (specs : List CmdSpec) :
    ∀ (us rs : List Command) (g : Grid), ∃ rs' : List Command,
      undoN specs.length (runSpecs specs (⟨us, rs⟩, g)) = (⟨us, rs'⟩, g) := by
  induction specs with
  | nil => intro us rs g; exact ⟨rs, rfl⟩
  | cons s rest ih =>
      intro us rs g
      obtain ⟨rs', hrs'⟩ :=
        ih (mkCommand s g :: us) [] ((mkCommand s g).exec g)
      refine ⟨mkCommand s g :: rs', ?_⟩
      simp only [runSpecs, cmExecute, List.length_cons, undoN, hrs', cmUndo,
        mkCommand_roundtrip]

/-! ## Structural shifts of the cell store (`Grid.shiftCellsDown` / `Up`)

`shiftCellsDown(insertAt)` loops `row` from `ROWS - 2` down to `insertAt`;
when `cells.get(row)` exists it builds a fresh row map whose cells are
`new Cell(row + 1, col)` carrying only the old value, and stores it at
`row + 1`; finally it sets an empty map at `insertAt`. -/

/-- The fresh row map built inside the loop body: each entry becomes a brand
new `Cell` at the new row carrying only `getValue()` (font size, bold and
italic revert to constructor defaults). -/
def copyRowTo (newRow : Nat) (rowMap : List (Nat × Cell)) : List (Nat × Cell) :=
  rowMap.map (fun p => (p.1, { Cell.new newRow p.1 with value := p.2.value }))

/-- The descending loop of `shiftCellsDown`: with fuel `n + 1` it processes
`row = insertAt + n` and recurses, so rows run from high to low. -/
def shiftCellsDownLoop (insertAt : Nat) : Nat → CellStore → CellStore
  | 0, cells => cells
  | n + 1, cells =>
      shiftCellsDownLoop insertAt n
        (match mapGet cells (insertAt + n) with
          | none => cells
          | some rowMap => mapSet cells (insertAt + n + 1) (copyRowTo (insertAt + n + 1) rowMap))

/-- `Grid.shiftCellsDown(insertAt)`: the loop over rows `ROWS - 2 .. insertAt`
followed by `cells.set(insertAt, new Map())`. -/
def shiftCellsDown (cells : CellStore) (insertAt : Nat) : CellStore :=
  mapSet (shiftCellsDownLoop insertAt (ROWS - 1 - insertAt) cells) insertAt []

/-- Loop body of `Grid.shiftCellsUp`: for the current `row`, copy
`cells.get(row + 1)` down to `row` when present, else delete `row`. -/
def shiftCellsUpStep (cells : CellStore) (row : Nat) : CellStore :=
  match mapGet cells (row + 1) with
  | none => mapDelete cells row
  | some rowMap => mapSet cells row (copyRowTo row rowMap)

/-- `Grid.shiftCellsUp(deleteAt)`: ascending loop over rows
`deleteAt .. ROWS - 2`, then `cells.delete(ROWS - 1)`. -/
def shiftCellsUp (cells : CellStore) (deleteAt : Nat) : CellStore :=
  mapDelete ((List.range' deleteAt (ROWS - 1 - deleteAt)).foldl shiftCellsUpStep cells) (ROWS - 1)

theorem shiftCellsDownLoop_skip (insertAt : Nat) (m : Nat) :
    ∀ (n : Nat) (cells : CellStore), m ≤ n →
      (∀ k, m ≤ k → k < n → mapGet cells (insertAt + k) = none) →
      shiftCellsDownLoop insertAt n cells = shiftCellsDownLoop insertAt m cells := by
  intro n
  induction n with
  | zero => intro cells hm _; interval_cases m; rfl
  | succ n ih =>
      intro cells hm hnone
      rcases Nat.lt_or_ge m (n + 1) with hlt | hge
      · have hn : m ≤ n := Nat.lt_succ_iff.mp hlt
        have hrow : mapGet cells (insertAt + n) = none :=
          hnone n hn (Nat.lt_succ_self n)
        simp only [shiftCellsDownLoop, hrow]
        exact ih cells hn (fun k hk1 hk2 => hnone k hk1 (Nat.lt_succ_of_lt hk2))
      · have : m = n + 1 := Nat.le_antisymm hm hge
        subst this
        rfl

/-! ## SizeTrack deletion -/

/-- Modelled from the spec: `RowManager.deleteRow` is called by
`Grid.onDeleteRow` but its definition is not among the provided sources; the
spec defines SizeTrack `delete(atIndex)` as removing one track, with all later
indices shifting back by one. -/
def deleteRow (heights : List Int) (at' : Nat) : List Int :=
  heights.eraseIdx at'

/-! ## SelectionManager (the revision with `selectColumns` and
`clearSelection`) -/

structure DragRect where
  startRow : Nat
  endRow : Nat
  startCol : Nat
  endCol : Nat
deriving DecidableEq

/-- All selection state: active cell, whole row/column, drag anchor/focus,
the dragging flag, the retained rectangle, and the `dragRange` written by
`selectColumns`. -/
structure SelectionManager where
  selectedCell : Option (Nat × Nat)
  selectedRow : Option Nat
  selectedCol : Option Nat
  dragStart : Option (Nat × Nat)
  dragEnd : Option (Nat × Option Nat)
  dragging : Bool
  dragRect : Option DragRect
  dragRange : Option (Option Nat × Option Nat × Option Nat × Option Nat)
deriving DecidableEq

/-- The state of a freshly constructed `SelectionManager`. -/
def SelectionManager.init : SelectionManager :=
  ⟨none, none, none, none, none, false, none, none⟩

/-- `clear()`: nulls the three scalar selections, the drag anchor/focus, the
dragging flag and the stored rectangle.  (It does not touch `dragRange`.) -/
def selClear (s : SelectionManager) : SelectionManager :=
  { s with
    selectedCell := none
    selectedRow := none
    selectedCol := none
    dragStart := none
    dragEnd := none
    dragging := false
    dragRect := none }

/-- `clearSelection()` just delegates to `clear()`. -/
def clearSelection (s : SelectionManager) : SelectionManager := selClear s

/-- `selectCell(row, col)`. -/
def selectCell (row col : Nat) (s : SelectionManager) : SelectionManager :=
  { selClear s with selectedCell := some (row, col) }

/-- `selectRow(row)`. -/
def selectRow (row : Nat) (s : SelectionManager) : SelectionManager :=
  { selClear s with selectedRow := some row }

/-- `selectColumn(col)`. -/
def selectColumn (col : Nat) (s : SelectionManager) : SelectionManager :=
  { selClear s with selectedCol := some col }

/-- `selectColumns(startCol, endCol)`: nulls only the three scalar selections
and records the column range in `dragRange`; the drag state is untouched. -/
def selectColumns (startCol endCol : Nat) (s : SelectionManager) : SelectionManager :=
  { s with
    selectedCell := none
    selectedRow := none
    selectedCol := none
    dragRange := some (none, none, some startCol, some endCol) }

/-- `startDrag(row, col)`. -/
def startDrag (row col : Nat) (s : SelectionManager) : SelectionManager :=
  { selClear s with
    dragging := true
    dragStart := some (row, col)
    dragEnd := some (row, some col) }

/-! ## Grid.onDeleteRow -/

/-- `Grid.onDeleteRow()`: returns unless a whole row is selected; then asks
the external `confirm` collaborator; declining returns with nothing mutated;
on confirmation it deletes the track entry, shifts cells up and clears the
selection. -/
def onDeleteRow (g : Grid) (sel : SelectionManager) (confirmed : Bool) :
    Grid × SelectionManager :=
  match sel.selectedRow with
  | none => (g, sel)
  | some selectedRow =>
      if confirmed then
        if selectedRow < ROWS then
          ({ g with
             rowHeights := deleteRow g.rowHeights selectedRow
             cells := shiftCellsUp g.cells selectedRow }, clearSelection sel)
        else (g, sel)
      else (g, sel)

/-! ## Column-resize drag session

Pointer-down on a column resize gutter stores `originalSize` and builds one
`ResizeColumnCommand(grid, col, originalSize, originalSize)`.  Every
pointer-move computes `newW = Math.max(40, originalSize + dx)`, applies it
directly via `setWidth` for live feedback, and calls `updateNewSize(newW)` on
the same command.  Pointer-up executes that single command through the
`CommandManager`. -/

/-- The drag-path clamp for columns: `Math.max(40, originalSize + dx)`. -/
def dragNewWidth (originalSize dx : Int) : Int := max 40 (originalSize + dx)

/-- The drag-path clamp for rows: `Math.max(20, originalSize + dy)`. -/
def dragNewHeight (originalSize dy : Int) : Int := max 20 (originalSize + dy)

/-- The pointer-move phase: apply each move's clamped width directly and
remember the command's current `newWidth`. -/
def resizeColMoves (orig : Int) (col : Nat) : List Int → Grid → Int → Grid × Int
  | [], g, curW => (g, curW)
  | dx :: rest, g, _ =>
      resizeColMoves orig col rest
        { g with colWidths := trackSet g.colWidths col (dragNewWidth orig dx) }
        (dragNewWidth orig dx)

/-- A whole resize session: pointer-down on column `col`, the list of
pointer-move deltas, then pointer-up executing the single accumulated
command. -/
def resizeColSession (cm : CommandManager) (g : Grid) (col : Nat)
    (dxs : List Int) : CommandManager × Grid :=
  let orig := trackGet g.colWidths col
  let moved := resizeColMoves orig col dxs g orig
  cmExecute (Command.resizeCol col orig moved.2) (cm, moved.1)

theorem trackSet_trackSet (l : List Int) (i : Nat) (a b : Int) :
    trackSet (trackSet l i a) i b = trackSet l i b := by
  simp [trackSet, List.set_set]

theorem trackSet_self (l : List Int) (i : Nat) :
    trackSet l i (trackGet l i) = l := by
  induction l generalizing i with
  | nil => simp [trackSet]
  | cons a t ih =>
      cases i with
      | zero => simp [trackSet, trackGet]
      | succ n =>
          simp [trackSet, trackGet, List.getD] at *
          exact ih n

/-- The symmetric row path of `onMouseDrag`: each pointer-move applies
`Math.max(20, originalSize + dy)` via `setHeight` and updates the command's
`newHeight`. -/
def resizeRowMoves (orig : Int) (row : Nat) : List Int → Grid → Int → Grid × Int
  | [], g, curH => (g, curH)
  | dy :: rest, g, _ =>
      resizeRowMoves orig row rest
        { g with rowHeights := trackSet g.rowHeights row (dragNewHeight orig dy) }
        (dragNewHeight orig dy)

/-- A whole row-resize session: pointer-down on the row gutter builds one
`ResizeRowCommand(grid, row, originalSize, originalSize)`, pointer-moves
mutate it, and the same `onMouseUp` executes it once. -/
def resizeRowSession (cm : CommandManager) (g : Grid) (row : Nat)
    (dys : List Int) : CommandManager × Grid :=
  let orig := trackGet g.rowHeights row
  let moved := resizeRowMoves orig row dys g orig
  cmExecute (Command.resizeRow row orig moved.2) (cm, moved.1)

theorem resizeColMoves_inv (orig : Int) (col : Nat) (dxs : List Int) :
    ∀ (g : Grid) (curW : Int),
      (resizeColMoves orig col dxs g curW).1.cells = g.cells ∧
      (resizeColMoves orig col dxs g curW).1.rowHeights = g.rowHeights ∧
      ∀ v, trackSet (resizeColMoves orig col dxs g curW).1.colWidths col v =
        trackSet g.colWidths col v := by
  induction dxs with
  | nil => intro g curW; exact ⟨rfl, rfl, fun _ => rfl⟩
  | cons dx rest ih =>
      intro g curW
      obtain ⟨h1, h2, h3⟩ :=
        ih { g with colWidths := trackSet g.colWidths col (dragNewWidth orig dx) }
          (dragNewWidth orig dx)
      refine ⟨h1, h2, fun v => ?_⟩
      rw [resizeColMoves, h3 v]
      exact trackSet_trackSet g.colWidths col (dragNewWidth orig dx) v

theorem resizeRowMoves_inv (orig : Int) (row : Nat) (dys : List Int) :
    ∀ (g : Grid) (curH : Int),
      (resizeRowMoves orig row dys g curH).1.cells = g.cells ∧
      (resizeRowMoves orig row dys g curH).1.colWidths = g.colWidths ∧
      ∀ v, trackSet (resizeRowMoves orig row dys g curH).1.rowHeights row v =
        trackSet g.rowHeights row v := by
  induction dys with
  | nil => intro g curH; exact ⟨rfl, rfl, fun _ => rfl⟩
  | cons dy rest ih =>
      intro g curH
      obtain ⟨h1, h2, h3⟩ :=
        ih { g with rowHeights := trackSet g.rowHeights row (dragNewHeight orig dy) }
          (dragNewHeight orig dy)
      refine ⟨h1, h2, fun v => ?_⟩
      rw [resizeRowMoves, h3 v]
      exact trackSet_trackSet g.rowHeights row (dragNewHeight orig dy) v

/-! ## Viewport calculator (`Grid.getVisibleRange`)

Both axes run the same pair of loops over their size track; the loops are
factored here and instantiated for rows and for columns.
`RENDER_BUFFER_PX = 200`. -/

/-- First loop: walk from index 0 accumulating `y`; break at the first index
with `y + size ≥ lo`, returning the index and its accumulated position.
`none` means the loop fell through (the accumulated total is then in scope at
the caller). -/
def firstTrackAux (lo : Int) : List Int → Int → Nat → Option (Nat × Int)
  | [], _, _ => none
  | h :: rest, y, r =>
      if lo ≤ y + h then some (r, y) else firstTrackAux lo rest (y + h) (r + 1)

/-- Second loop: continue from the first index and its position; break at the
first index whose position exceeds `hi`.  `none` means it fell through. -/
def lastTrackAux (hi : Int) : List Int → Int → Nat → Option Nat
  | [], _, _ => none
  | h :: rest, y, r =>
      if hi < y then some r else lastTrackAux hi rest (y + h) (r + 1)

/-- One axis of `getVisibleRange`: first index defaults to 0 (with the loop's
final accumulated `y`, i.e. the total), last index defaults to `length - 1`. -/
def visibleTracks (sizes : List Int) (scroll view : Int) : Nat × Nat :=
  let fp :=
    match firstTrackAux (scroll - 200) sizes 0 0 with
    | some p => p
    | none => (0, trackTotal sizes)
  let lastIdx :=
    match lastTrackAux (scroll + view + 200) (sizes.drop fp.1) fp.2 fp.1 with
    | some r => r
    | none => sizes.length - 1
  (fp.1, lastIdx)

/-- `Grid.getVisibleRange()`: rows walk `rowMgr` against `scrollY`/`viewH`,
columns walk `colMgr` against `scrollX`/`viewW`. -/
def getVisibleRange (g : Grid) (scrollX scrollY viewW viewH : Int) :
    Nat × Nat × Nat × Nat :=
  let rp := visibleTracks g.rowHeights scrollY viewH
  let cp := visibleTracks g.colWidths scrollX viewW
  (rp.1, rp.2, cp.1, cp.2)

theorem foldl_add_eq_sum (l : List Int) : ∀ a : Int, l.foldl (· + ·) a = a + l.sum := by
  induction l with
  | nil => intro a; simp
  | cons x t ih => intro a; simp [List.foldl_cons, ih, List.sum_cons]; ring

theorem trackTotal_eq_sum (l : List Int) : trackTotal l = l.sum := by
  simp [trackTotal, foldl_add_eq_sum]

theorem trackPos_eq_sum (l : List Int) (i : Nat) :
    trackPos l i = (l.take i).sum := by
  simp [trackPos, foldl_add_eq_sum]

theorem firstTrackAux_break (lo : Int) :
    ∀ (l : List Int) (y : Int) (r : Nat), l ≠ [] → lo ≤ y + l.sum →
      ∃ f y0, firstTrackAux lo l y r = some (f, y0) := by
  intro l
  induction l with
  | nil => intro y r h; exact absurd rfl h
  | cons h t ih =>
      intro y r _ hle
      by_cases hb : lo ≤ y + h
      · exact ⟨r, y, by simp [firstTrackAux, hb]⟩
      · push_neg at hb
        have ht : t ≠ [] := by
          rintro rfl
          simp at hle
          omega
        have hle' : lo ≤ y + h + t.sum := by
          simp [List.sum_cons] at hle
          omega
        obtain ⟨f, y0, hf⟩ := ih (y + h) (r + 1) ht hle'
        refine ⟨f, y0, ?_⟩
        simp [firstTrackAux, not_le.mpr hb, hf]

theorem firstTrackAux_early (lo : Int) :
    ∀ (l : List Int) (y : Int) (r : Nat) (f : Nat) (y0 : Int),
      firstTrackAux lo l y r = some (f, y0) → y0 = y ∨ y0 < lo := by
  intro l
  induction l with
  | nil => intro y r f y0 h; simp [firstTrackAux] at h
  | cons h t ih =>
      intro y r f y0 hf
      by_cases hb : lo ≤ y + h
      · simp [firstTrackAux, hb] at hf
        exact Or.inl hf.2.symm
      · simp [firstTrackAux, hb] at hf
        rcases ih (y + h) (r + 1) f y0 hf with heq | hlt
        · right; omega
        · exact Or.inr hlt

theorem firstTrackAux_shape (lo : Int) :
    ∀ (l : List Int) (y : Int) (r : Nat) (f : Nat) (y0 : Int),
      firstTrackAux lo l y r = some (f, y0) →
      r ≤ f ∧ f - r < l.length ∧ y0 = y + (l.take (f - r)).sum := by
  intro l
  induction l with
  | nil => intro y r f y0 h; simp [firstTrackAux] at h
  | cons h t ih =>
      intro y r f y0 hf
      by_cases hb : lo ≤ y + h
      · simp [firstTrackAux, hb] at hf
        obtain ⟨hr, hy⟩ := hf
        subst hr
        refine ⟨le_refl r, by simp, ?_⟩
        simp [hy]
      · simp [firstTrackAux, hb] at hf
        obtain ⟨hr, hlen, hy⟩ := ih (y + h) (r + 1) f y0 hf
        have hrf : r ≤ f := Nat.le_of_succ_le hr
        refine ⟨hrf, ?_, ?_⟩
        · simp only [List.length_cons]
          omega
        · have : f - r = (f - (r + 1)) + 1 := by omega
          rw [this]
          simp [List.take_succ_cons, List.sum_cons]
          omega

theorem lastTrackAux_shape (hi : Int) :
    ∀ (m : List Int) (y : Int) (r : Nat) (lst : Nat),
      lastTrackAux hi m y r = some lst →
      r ≤ lst ∧ lst - r < m.length ∧ hi < y + (m.take (lst - r)).sum := by
  intro m
  induction m with
  | nil => intro y r lst h; simp [lastTrackAux] at h
  | cons h t ih =>
      intro y r lst hl
      by_cases hb : hi < y
      · simp [lastTrackAux, hb] at hl
        subst hl
        exact ⟨le_refl r, by simp, by simpa using hb⟩
      · simp [lastTrackAux, hb] at hl
        obtain ⟨hr, hlen, hy⟩ := ih (y + h) (r + 1) lst hl
        refine ⟨Nat.le_of_succ_le hr, ?_, ?_⟩
        · simp only [List.length_cons]
          omega
        · have : lst - r = (lst - (r + 1)) + 1 := by omega
          rw [this]
          simp [List.take_succ_cons, List.sum_cons]
          omega

theorem getD_nonneg (l : List Int) (i : Nat) (h : ∀ s ∈ l, 0 ≤ s) :
    0 ≤ l.getD i 0 := by
  induction l generalizing i with
  | nil => simp [List.getD]
  | cons a t ih =>
      cases i with
      | zero => exact h a (List.mem_cons_self a t)
      | succ n =>
          simp only [List.getD_cons_succ]
          exact ih n (fun s hs => h s (List.mem_cons_of_mem a hs))

theorem sum_take_last (l : List Int) (h : l ≠ []) :
    l.sum = (l.take (l.length - 1)).sum + l.getD (l.length - 1) 0 := by
  induction l with
  | nil => exact absurd rfl h
  | cons a t ih =>
      cases t with
      | nil => simp
      | cons b u =>
          have ht : (b :: u) ≠ [] := by simp
          have hu := ih ht
          simp only [List.length_cons, Nat.add_sub_cancel] at *
          simp only [List.sum_cons, List.take_succ_cons, List.getD_cons_succ]
          rw [List.sum_cons] at hu
          omega

theorem visibleTracks_covers (sizes : List Int) (scroll view : Int)
    (hne : sizes ≠ []) (hpos : ∀ s ∈ sizes, 0 ≤ s) (hs0 : 0 ≤ scroll)
    (hv0 : 0 ≤ view) (hsv : scroll + view ≤ sizes.sum) :
    (visibleTracks sizes scroll view).1 ≤ (visibleTracks sizes scroll view).2 ∧
    (visibleTracks sizes scroll view).2 < sizes.length ∧
    trackPos sizes (visibleTracks sizes scroll view).1 ≤ scroll ∧
    scroll + view ≤ trackPos sizes (visibleTracks sizes scroll view).2 +
      trackGet sizes (visibleTracks sizes scroll view).2 := by
  have hlo : scroll - 200 ≤ 0 + sizes.sum := by omega
  obtain ⟨f, y0, hfst⟩ := firstTrackAux_break (scroll - 200) sizes 0 0 hne hlo
  obtain ⟨-, hflen, hy0⟩ := firstTrackAux_shape (scroll - 200) sizes 0 0 f y0 hfst
  simp only [Nat.sub_zero] at hflen
  have hy0pos : y0 = trackPos sizes f := by
    rw [trackPos_eq_sum]
    simpa using hy0
  have hy0le : y0 ≤ scroll := by
    rcases firstTrackAux_early (scroll - 200) sizes 0 0 f y0 hfst with h | h <;> omega
  unfold visibleTracks
  rw [hfst]
  cases hlst : lastTrackAux (scroll + view + 200) (sizes.drop f) y0 f with
  | none =>
      simp only [hlst]
      have hlen0 : 0 < sizes.length := List.length_pos.mpr hne
      refine ⟨Nat.le_pred_of_lt hflen, Nat.sub_lt hlen0 one_pos, by omega, ?_⟩
      have hlast := sum_take_last sizes hne
      rw [trackPos_eq_sum, trackGet]
      omega
  | some lst =>
      simp only [hlst]
      obtain ⟨hrle, hlstlen, hbrk⟩ :=
        lastTrackAux_shape (scroll + view + 200) (sizes.drop f) y0 f lst hlst
      rw [List.length_drop] at hlstlen
      have hlstlt : lst < sizes.length := by omega
      have hposlst : y0 + ((sizes.drop f).take (lst - f)).sum = trackPos sizes lst := by
        rw [trackPos_eq_sum, hy0]
        have : sizes.take f ++ (sizes.drop f).take (lst - f) = sizes.take lst := by
          rw [← List.take_add]
          congr 1
          omega
        rw [← this, List.sum_append]
        simp
      have hget : 0 ≤ trackGet sizes lst := getD_nonneg sizes lst hpos
      refine ⟨hrle, hlstlt, by omega, ?_⟩
      rw [← hposlst]
      unfold trackGet at hget ⊢
      omega

/-! ## Cell-store operation traces

The store starts empty (the `Grid` constructor creates no cells) and is
populated only by writes (`setCellValue`) and edit-opens (`getCell`, called
from `startEditingCell`).  The existence/value reads walk the two maps with
`get` only. -/

/-- The grid as built by the constructor:
`new RowManager(ROWS, 30)`, `new ColumnManager(COLS, 100)`, no cells. -/
def initialGrid : Grid :=
  ⟨[], mkTrack ROWS 30, mkTrack COLS 100⟩

inductive CellOp where
  | write (r c : Nat) (v : String)
  | editOpen (r c : Nat)
  | readCell (r c : Nat)
  | readValue (r c : Nat)
deriving DecidableEq

/-- Effect of one operation on the grid: `write` runs `setCellValue`,
`editOpen` runs `getCell` (dropping the returned cell), and the two reads run
`getCellIfExists` / `getCellValueIfExists`, which perform no store mutation. -/
def applyOp (g : Grid) : CellOp → Grid
  | .write r c v => setCellValue g r c v
  | .editOpen r c => (getCell g r c).2
  | .readCell _ _ => g
  | .readValue _ _ => g

def runOps (g : Grid) : List CellOp → Grid
  | [] => g
  | op :: rest => runOps (applyOp g op) rest

/-- Does this operation write or edit-open the coordinate `(r, c)`? -/
def touches : CellOp → Nat → Nat → Bool
  | .write r' c' _, r, c => r' = r && c' = c
  | .editOpen r' c', r, c => r' = r && c' = c
  | .readCell _ _, _, _ => false
  | .readValue _ _, _, _ => false

/-- Is this operation a pure read? -/
def isRead : CellOp → Bool
  | .readCell _ _ => true
  | .readValue _ _ => true
  | _ => false

theorem getCellIfExists_set_pres (g : Grid) (r c r' c' : Nat)
    (rm : List (Nat × Cell)) (x : Cell)
    (hnone : getCellIfExists g r c = none)
    (hrm : mapGet g.cells r' = none ∧ rm = [] ∨ mapGet g.cells r' = some rm)
    (hne : ¬(r' = r ∧ c' = c)) :
    getCellIfExists { g with cells := mapSet g.cells r' (mapSet rm c' x) } r c
      = none := by
  unfold getCellIfExists at *
  by_cases hr : r' = r
  · subst hr
    have hcc : c' ≠ c := fun hc => hne ⟨rfl, hc⟩
    simp only [mapGet_mapSet_self]
    rw [mapGet_mapSet_ne rm c' c x hcc]
    rcases hrm with ⟨hn, hrm0⟩ | hs
    · subst hrm0
      rfl
    · simp only [hs] at hnone
      exact hnone
  · simp only [mapGet_mapSet_ne g.cells r' r (mapSet rm c' x) hr]
    exact hnone

theorem getCellIfExists_applyOp_pres (g : Grid) (op : CellOp) (r c : Nat)
    (hnone : getCellIfExists g r c = none)
    (ht : touches op r c = false) :
    getCellIfExists (applyOp g op) r c = none := by
  cases op with
  | readCell r' c' => exact hnone
  | readValue r' c' => exact hnone
  | editOpen r' c' =>
      simp only [touches, Bool.and_eq_false_iff, decide_eq_false_iff_not] at ht
      have hne : ¬(r' = r ∧ c' = c) := by
        rintro ⟨h1, h2⟩
        rcases ht with h | h <;> simp [h1, h2] at h
      simp only [applyOp, getCell]
      cases hrm : mapGet g.cells r' with
      | none =>
          simp only [hrm]
          exact getCellIfExists_set_pres g r c r' c' [] (Cell.new r' c') hnone
            (Or.inl ⟨hrm, rfl⟩) hne
      | some rowMap =>
          cases hc : mapGet rowMap c' with
          | none =>
              simp only [hrm, hc]
              exact getCellIfExists_set_pres g r c r' c' rowMap (Cell.new r' c')
                hnone (Or.inr hrm) hne
          | some cell =>
              simp only [hrm, hc]
              exact hnone
  | write r' c' v =>
      simp only [touches, Bool.and_eq_false_iff, decide_eq_false_iff_not] at ht
      have hne : ¬(r' = r ∧ c' = c) := by
        rintro ⟨h1, h2⟩
        rcases ht with h | h <;> simp [h1, h2] at h
      simp only [applyOp, setCellValue]
      by_cases htr : strTrim v = ""
      · simpa [htr] using hnone
      · simp only [htr, if_false]
        have hmid : getCellIfExists (getCell g r' c').2 r c = none := by
          simp only [getCell]
          cases hrm : mapGet g.cells r' with
          | none =>
              simp only [hrm]
              exact getCellIfExists_set_pres g r c r' c' [] (Cell.new r' c') hnone
                (Or.inl ⟨hrm, rfl⟩) hne
          | some rowMap =>
              cases hc : mapGet rowMap c' with
              | none =>
                  simp only [hrm, hc]
                  exact getCellIfExists_set_pres g r c r' c' rowMap (Cell.new r' c')
                    hnone (Or.inr hrm) hne
              | some cell =>
                  simp only [hrm, hc]
                  exact hnone
        set g' := (getCell g r' c').2 with hg'
        unfold updateCellInStore
        cases hrm' : mapGet g'.cells r' with
        | none =>
            simp only [hrm']
            exact hmid
        | some rowMap' =>
            cases hc' : mapGet rowMap' c' with
            | none =>
                simp only [hrm', hc']
                exact hmid
            | some cell' =>
                simp only [hrm', hc']
                exact getCellIfExists_set_pres g' r c r' c' rowMap'
                  { cell' with value := v } hmid (Or.inr hrm') hne

theorem getCellIfExists_runOps_none (ops : List CellOp) :
    ∀ (g : Grid) (r c : Nat), getCellIfExists g r c = none →
      (∀ op ∈ ops, touches op r c = false) →
      getCellIfExists (runOps g ops) r c = none := by
  induction ops with
  | nil => intro g r c h _; exact h
  | cons op rest ih =>
      intro g r c h hall
      exact ih (applyOp g op) r c
        (getCellIfExists_applyOp_pres g op r c h (hall op (List.mem_cons_self op rest)))
        (fun o ho => hall o (List.mem_cons_of_mem op ho))

theorem getCellValueIfExists_of_none (g : Grid) (r c : Nat)
    (h : getCellIfExists g r c = none) : getCellValueIfExists g r c = "" := by
  unfold getCellIfExists at h
  unfold getCellValueIfExists
  cases hr : mapGet g.cells r with
  | none => simp only [hr]
  | some rowMap =>
      simp only [hr] at h
      simp only [hr, h]

theorem runOps_reads_id (reads : List CellOp) :
    ∀ g : Grid, (∀ op ∈ reads, isRead op = true) → runOps g reads = g := by
  induction reads with
  | nil => intro g _; rfl
  | cons op rest ih =>
      intro g hall
      have hop := hall op (List.mem_cons_self op rest)
      have hg : applyOp g op = g := by
        cases op with
        | readCell r c => rfl
        | readValue r c => rfl
        | write r c v => simp [isRead] at hop
        | editOpen r c => simp [isRead] at hop
      rw [runOps, hg]
      exact ih g (fun o ho => hall o (List.mem_cons_of_mem op ho))

/-! ## Claim theorems -/

/-- Claim C1: for every sequence of `n` `CommandManager.execute(command)`
calls (each command constructed from the live state immediately before its
execution, as in all call sites) followed by exactly `n` `undo()` calls, the
cell store and the row/column size tracks are restored to exactly the state
they had before the sequence, for the command types present in the source
(resize-row, resize-column, bold, italic, font-size). -/
theorem C1_execute_undo_roundtrip (specs : List CmdSpec) (cm : CommandManager)
    (g : Grid) : (undoN specs.length (runSpecs specs (cm, g))).2 = g := by
  obtain ⟨rs', h⟩ := runSpecs_undoN specs cm.undoStack cm.redoStack g
  have hcm : (⟨cm.undoStack, cm.redoStack⟩ : CommandManager) = cm := rfl
  rw [hcm] at h
  rw [h]

/-- Claim C8: `execute` empties the redo stack after pushing onto the undo
stack; `undo` on an empty undo stack and `redo` on an empty redo stack are
no-ops changing neither stack nor grid state; `undo` moves the popped command
to the redo stack and `redo` moves it back. -/
theorem C8_command_manager_stacks :
    (∀ (c : Command) (cm : CommandManager) (g : Grid),
      cmExecute c (cm, g) = (⟨c :: cm.undoStack, []⟩, c.exec g)) ∧
    (∀ (rs : List Command) (g : Grid), cmUndo (⟨[], rs⟩, g) = (⟨[], rs⟩, g)) ∧
    (∀ (us : List Command) (g : Grid), cmRedo (⟨us, []⟩, g) = (⟨us, []⟩, g)) ∧
    (∀ (c : Command) (us rs : List Command) (g : Grid),
      cmUndo (⟨c :: us, rs⟩, g) = (⟨us, c :: rs⟩, c.undoStep g)) ∧
    (∀ (c : Command) (us rs : List Command) (g : Grid),
      cmRedo (⟨us, c :: rs⟩, g) = (⟨c :: us, rs⟩, c.exec g)) :=
  ⟨fun _ _ _ => rfl, fun _ _ => rfl, fun _ _ => rfl,
   fun _ _ _ _ => rfl, fun _ _ _ _ => rfl⟩

/-- Claim C10: for every `(row, col)` and every value whose trimmed form is
empty, `setCellValue` is a complete no-op: the state (hence every existing
cell and the occupied-entry count) is unchanged and no cell materializes. -/
theorem C10_blank_write_noop (g : Grid) (r c : Nat) (v : String)
    (h : strTrim v = "") :
    setCellValue g r c v = g ∧
    countCreatedCells (setCellValue g r c v) = countCreatedCells g := by
  have hg : setCellValue g r c v = g := by simp [setCellValue, h]
  exact ⟨hg, by rw [hg]⟩

/-- Witness for C10 at a whitespace-only value. -/
theorem C10_blank_write_noop_witness :
    setCellValue initialGrid 2 3 "  " = initialGrid ∧
    countCreatedCells (setCellValue initialGrid 2 3 "  ") =
      countCreatedCells initialGrid :=
  C10_blank_write_noop initialGrid 2 3 "  " (by decide)

/-- Claim C5: for every coordinate never written or edit-opened along a trace
starting from the freshly constructed grid, `getCellIfExists` returns absent
and `getCellValueIfExists` returns the empty string; and any sequence of pure
reads leaves `countCreatedCells` unchanged on any grid. -/
theorem C5_unwritten_reads (ops : List CellOp) (r c : Nat)
    (h : ∀ op ∈ ops, touches op r c = false) :
    getCellIfExists (runOps initialGrid ops) r c = none ∧
    getCellValueIfExists (runOps initialGrid ops) r c = "" ∧
    ∀ (g : Grid) (reads : List CellOp), (∀ op ∈ reads, isRead op = true) →
      countCreatedCells (runOps g reads) = countCreatedCells g := by
  have h0 : getCellIfExists initialGrid r c = none := rfl
  have h1 := getCellIfExists_runOps_none ops initialGrid r c h0 h
  refine ⟨h1, getCellValueIfExists_of_none _ r c h1, ?_⟩
  intro g reads hreads
  rw [runOps_reads_id reads g hreads]

/-- Witness for C5: write "hello" at (0,0), then look at (1,1); a read trace
leaves the count unchanged. -/
theorem C5_unwritten_reads_witness :
    getCellIfExists (runOps initialGrid [CellOp.write 0 0 "hello"]) 1 1 = none ∧
    getCellValueIfExists (runOps initialGrid [CellOp.write 0 0 "hello"]) 1 1 = "" ∧
    countCreatedCells (runOps initialGrid [CellOp.readCell 1 1, CellOp.readValue 2 2]) =
      countCreatedCells initialGrid := by
  have h := C5_unwritten_reads [CellOp.write 0 0 "hello"] 1 1 (by decide)
  exact ⟨h.1, h.2.1, h.2.2 initialGrid [CellOp.readCell 1 1, CellOp.readValue 2 2]
    (by decide)⟩

/-- Claim C6: for scroll offsets within `[0, total - viewport]` on both axes
(and nonnegative sizes), the visible range satisfies `first ≤ last` and the
pixel span from `position(first)` to `position(last) + size(last)` covers the
scrolled window, on both axes. -/
theorem C6_visible_range_covers (g : Grid) (scrollX scrollY viewW viewH : Int)
    (hrne : g.rowHeights ≠ []) (hrpos : ∀ s ∈ g.rowHeights, 0 ≤ s)
    (hcne : g.colWidths ≠ []) (hcpos : ∀ s ∈ g.colWidths, 0 ≤ s)
    (hy : 0 ≤ scrollY) (hh : 0 ≤ viewH)
    (hytot : scrollY + viewH ≤ trackTotal g.rowHeights)
    (hx : 0 ≤ scrollX) (hw : 0 ≤ viewW)
    (hxtot : scrollX + viewW ≤ trackTotal g.colWidths) :
    (getVisibleRange g scrollX scrollY viewW viewH).1 ≤
      (getVisibleRange g scrollX scrollY viewW viewH).2.1 ∧
    trackPos g.rowHeights (getVisibleRange g scrollX scrollY viewW viewH).1 ≤ scrollY ∧
    scrollY + viewH ≤
      trackPos g.rowHeights (getVisibleRange g scrollX scrollY viewW viewH).2.1 +
        trackGet g.rowHeights (getVisibleRange g scrollX scrollY viewW viewH).2.1 ∧
    (getVisibleRange g scrollX scrollY viewW viewH).2.2.1 ≤
      (getVisibleRange g scrollX scrollY viewW viewH).2.2.2 ∧
    trackPos g.colWidths (getVisibleRange g scrollX scrollY viewW viewH).2.2.1 ≤ scrollX ∧
    scrollX + viewW ≤
      trackPos g.colWidths (getVisibleRange g scrollX scrollY viewW viewH).2.2.2 +
        trackGet g.colWidths (getVisibleRange g scrollX scrollY viewW viewH).2.2.2 := by
  rw [trackTotal_eq_sum] at hytot hxtot
  obtain ⟨hr1, _, hr3, hr4⟩ :=
    visibleTracks_covers g.rowHeights scrollY viewH hrne hrpos hy hh hytot
  obtain ⟨hc1, _, hc3, hc4⟩ :=
    visibleTracks_covers g.colWidths scrollX viewW hcne hcpos hx hw hxtot
  exact ⟨hr1, hr3, hr4, hc1, hc3, hc4⟩

/-- Witness for C6 on a small grid with concrete scroll values. -/
theorem C6_visible_range_covers_witness :
    (getVisibleRange (Grid.mk [] [30, 30, 30] [100, 100]) 0 10 150 40).1 ≤
      (getVisibleRange (Grid.mk [] [30, 30, 30] [100, 100]) 0 10 150 40).2.1 ∧
    trackPos [30, 30, 30]
      (getVisibleRange (Grid.mk [] [30, 30, 30] [100, 100]) 0 10 150 40).1 ≤ 10 ∧
    (10 : Int) + 40 ≤
      trackPos [30, 30, 30]
        (getVisibleRange (Grid.mk [] [30, 30, 30] [100, 100]) 0 10 150 40).2.1 +
      trackGet [30, 30, 30]
        (getVisibleRange (Grid.mk [] [30, 30, 30] [100, 100]) 0 10 150 40).2.1 := by
  have h := C6_visible_range_covers (Grid.mk [] [30, 30, 30] [100, 100]) 0 10 150 40
    (by decide) (by decide) (by decide) (by decide) (by decide) (by decide)
    (by decide) (by decide) (by decide) (by decide)
  exact ⟨h.1, h.2.1, h.2.2.1⟩

/-- Claim C7: every resize drag session (pointer-down on a resize gutter, any
number of pointer-moves each updating the single in-progress command,
pointer-up) pushes exactly one command onto the undo stack, and a subsequent
`undo()` restores the full grid state, in particular the track's original
size — for both the column-resize and the symmetric row-resize path. -/
theorem C7_resize_session_single_command (cm : CommandManager) (g : Grid)
    (col row : Nat) (dxs dys : List Int) :
    (resizeColSession cm g col dxs).1.undoStack.length =
      cm.undoStack.length + 1 ∧
    (resizeColSession cm g col dxs).1.undoStack.tail = cm.undoStack ∧
    (cmUndo (resizeColSession cm g col dxs)).2 = g ∧
    (resizeRowSession cm g row dys).1.undoStack.length =
      cm.undoStack.length + 1 ∧
    (resizeRowSession cm g row dys).1.undoStack.tail = cm.undoStack ∧
    (cmUndo (resizeRowSession cm g row dys)).2 = g := by
  obtain ⟨hccells, hcrows, hccols⟩ :=
    resizeColMoves_inv (trackGet g.colWidths col) col dxs g (trackGet g.colWidths col)
  obtain ⟨hrcells, hrcols, hrrows⟩ :=
    resizeRowMoves_inv (trackGet g.rowHeights row) row dys g (trackGet g.rowHeights row)
  refine ⟨by simp [resizeColSession, cmExecute],
    by simp [resizeColSession, cmExecute], ?_,
    by simp [resizeRowSession, cmExecute],
    by simp [resizeRowSession, cmExecute], ?_⟩
  · simp only [resizeColSession, cmExecute, cmUndo, Command.exec, Command.undoStep]
    cases g with
    | mk cells rows cols =>
        simp only [Grid.mk.injEq]
        refine ⟨hccells, hcrows, ?_⟩
        rw [trackSet_trackSet, hccols]
        exact trackSet_self cols col
  · simp only [resizeRowSession, cmExecute, cmUndo, Command.exec, Command.undoStep]
    cases g with
    | mk cells rows cols =>
        simp only [Grid.mk.injEq]
        refine ⟨hrcells, ?_, hrcols⟩
        rw [trackSet_trackSet, hrrows]
        exact trackSet_self rows row

/-- Claim C2 evaluation: `shiftCellsDown(3)` on a store whose only occupied
row is 5 leaves the original entry at row 5 while also writing the copy at
row 6 — a stale copy at the old key — and the copy at row 6 has lost the
bold flag of the moved cell. -/
theorem C2_stale_copy_eval :
    getCellValueIfExists
      (Grid.mk (shiftCellsDown [(5, [(0, Cell.mk 5 0 "x" 14 true false)])] 3)
        (mkTrack ROWS 30) (mkTrack COLS 100)) 5 0 = "x" ∧
    getCellValueIfExists
      (Grid.mk (shiftCellsDown [(5, [(0, Cell.mk 5 0 "x" 14 true false)])] 3)
        (mkTrack ROWS 30) (mkTrack COLS 100)) 6 0 = "x" ∧
    (getCellIfExists
      (Grid.mk (shiftCellsDown [(5, [(0, Cell.mk 5 0 "x" 14 true false)])] 3)
        (mkTrack ROWS 30) (mkTrack COLS 100)) 6 0).map Cell.isBold = some false := by
  have hskip : shiftCellsDownLoop 3 (ROWS - 1 - 3)
      [(5, [(0, Cell.mk 5 0 "x" 14 true false)])] =
      shiftCellsDownLoop 3 3 [(5, [(0, Cell.mk 5 0 "x" 14 true false)])] := by
    apply shiftCellsDownLoop_skip 3 3 (ROWS - 1 - 3) _ (by decide)
    intro k hk1 _
    show mapGet [(5, [(0, Cell.mk 5 0 "x" 14 true false)])] (3 + k) = none
    unfold mapGet
    rw [if_neg (by omega)]
    rfl
  have hcells : shiftCellsDown [(5, [(0, Cell.mk 5 0 "x" 14 true false)])] 3 =
      mapSet (shiftCellsDownLoop 3 3 [(5, [(0, Cell.mk 5 0 "x" 14 true false)])]) 3 [] := by
    unfold shiftCellsDown
    rw [hskip]
  rw [hcells]
  decide

/-- Claim C3 counterexample: `setHeight` stores a requested size of −5
verbatim, so right after the point of mutation the stored size is negative
and below both minimum floors, refuting the claimed clamp-at-mutator. -/
theorem C3_counterexample :
    trackGet (trackSet (mkTrack 2 30) 0 (-5)) 0 = -5 ∧
    trackGet (trackSet (mkTrack 2 30) 0 (-5)) 0 < 0 ∧
    trackGet (trackSet (mkTrack 2 30) 0 (-5)) 0 < 20 ∧
    trackGet (trackSet (mkTrack 2 30) 0 (-5)) 0 < 40 := by
  decide

/-- Claim C3 (amended): the size-track mutators store the requested size
verbatim with no clamping, so callers can store negative or sub-minimum
sizes; the minimum floor (40 column width, 20 row height) is enforced only in
the pointer-drag path, whose `Math.max` guarantees the stored size is at or
above the floor. -/
theorem C3_amended_clamp_only_in_drag (l : List Int) (i : Nat) (v : Int)
    (h : i < l.length) (orig dx dy : Int) :
    trackGet (trackSet l i v) i = v ∧
    40 ≤ trackGet (trackSet l i (dragNewWidth orig dx)) i ∧
    20 ≤ trackGet (trackSet l i (dragNewHeight orig dy)) i := by
  refine ⟨trackGet_trackSet_self l i v h, ?_, ?_⟩
  · rw [trackGet_trackSet_self l i _ h]
    exact le_max_left 40 (orig + dx)
  · rw [trackGet_trackSet_self l i _ h]
    exact le_max_left 20 (orig + dy)

/-- Witness for the amended C3 at a concrete track and drag delta. -/
theorem C3_amended_clamp_only_in_drag_witness :
    trackGet (trackSet (mkTrack 2 30) 0 (-5)) 0 = -5 ∧
    40 ≤ trackGet (trackSet (mkTrack 2 30) 0 (dragNewWidth 100 (-500))) 0 ∧
    20 ≤ trackGet (trackSet (mkTrack 2 30) 0 (dragNewHeight 100 (-500))) 0 :=
  C3_amended_clamp_only_in_drag (mkTrack 2 30) 0 (-5) (by decide) 100 (-500) (-500)

/-- Claim C4 counterexample: starting a drag and then calling
`selectColumns` leaves the drag fully active (dragging flag and anchor
intact) while a column range is recorded, so `selectColumns` does not first
clear prior selection state and two selection categories coexist. -/
theorem C4_counterexample :
    (selectColumns 1 2 (startDrag 0 0 SelectionManager.init)).dragging = true ∧
    (selectColumns 1 2 (startDrag 0 0 SelectionManager.init)).dragStart = some (0, 0) ∧
    (selectColumns 1 2 (startDrag 0 0 SelectionManager.init)).dragRange ≠ none := by
  decide

/-- Claim C4 (amended): `selectCell`, `selectRow`, `selectColumn` and
`startDrag` each first clear all prior selection state (via `clear()`), so
after them the other categories are inactive; `selectColumns` clears only the
selected cell/row/column fields and leaves the drag state (dragging flag,
anchor, focus, stored rectangle) untouched. -/
theorem C4_amended_selection_clearing (s : SelectionManager) (r c a b : Nat) :
    ((selectCell r c s).selectedRow = none ∧ (selectCell r c s).selectedCol = none ∧
      (selectCell r c s).dragging = false ∧ (selectCell r c s).dragRect = none ∧
      (selectCell r c s).dragStart = none) ∧
    ((selectRow r s).selectedCell = none ∧ (selectRow r s).selectedCol = none ∧
      (selectRow r s).dragging = false ∧ (selectRow r s).dragRect = none) ∧
    ((selectColumn c s).selectedCell = none ∧ (selectColumn c s).selectedRow = none ∧
      (selectColumn c s).dragging = false ∧ (selectColumn c s).dragRect = none) ∧
    ((startDrag r c s).selectedCell = none ∧ (startDrag r c s).selectedRow = none ∧
      (startDrag r c s).selectedCol = none ∧ (startDrag r c s).dragRect = none) ∧
    ((selectColumns a b s).dragging = s.dragging ∧
      (selectColumns a b s).dragStart = s.dragStart ∧
      (selectColumns a b s).dragEnd = s.dragEnd ∧
      (selectColumns a b s).dragRect = s.dragRect ∧
      (selectColumns a b s).selectedCell = none ∧
      (selectColumns a b s).selectedRow = none ∧
      (selectColumns a b s).selectedCol = none) :=
  ⟨⟨rfl, rfl, rfl, rfl, rfl⟩, ⟨rfl, rfl, rfl, rfl⟩, ⟨rfl, rfl, rfl, rfl⟩,
   ⟨rfl, rfl, rfl, rfl⟩, ⟨rfl, rfl, rfl, rfl, rfl, rfl, rfl⟩⟩

/-- Claim C9: `onDeleteRow` mutates nothing unless a whole row is selected
and the external confirmation returns affirmatively; declining (or having no
row selected) leaves all state unchanged; on confirmation the track entry is
deleted, the cells are shifted up, and the selection is cleared. -/
theorem C9_delete_row_confirmation (g : Grid) (sel : SelectionManager) :
    onDeleteRow g sel false = (g, sel) ∧
    (sel.selectedRow = none → ∀ conf, onDeleteRow g sel conf = (g, sel)) ∧
    (∀ r, sel.selectedRow = some r → r < ROWS →
      onDeleteRow g sel true =
        ({ g with
            rowHeights := deleteRow g.rowHeights r
            cells := shiftCellsUp g.cells r }, clearSelection sel)) := by
  refine ⟨?_, ?_, ?_⟩
  · unfold onDeleteRow
    cases hsel : sel.selectedRow with
    | none => rfl
    | some r => simp
  · intro hnone conf
    unfold onDeleteRow
    rw [hnone]
  · intro r hsel hr
    unfold onDeleteRow
    rw [hsel]
    simp [hr]

/-- Witness for C9: a row-1 selection with confirmation performs the delete,
and declining performs nothing. -/
theorem C9_delete_row_confirmation_witness :
    onDeleteRow initialGrid { SelectionManager.init with selectedRow := some 1 } true =
      ({ initialGrid with
          rowHeights := deleteRow initialGrid.rowHeights 1
          cells := shiftCellsUp initialGrid.cells 1 },
        clearSelection { SelectionManager.init with selectedRow := some 1 }) ∧
    onDeleteRow initialGrid { SelectionManager.init with selectedRow := some 1 } false =
      (initialGrid, { SelectionManager.init with selectedRow := some 1 }) := by
  have h := C9_delete_row_confirmation initialGrid
    { SelectionManager.init with selectedRow := some 1 }
  exact ⟨h.2.2 1 rfl (by decide), h.1⟩

end Excel
